import Mathlib

/-!
Verification development for the GitHub-manifest synchronization service
(src/services/githubService.ts) of the artist-portfolio application.

The service is shallowly embedded:
* JS strings are modelled as `List Char` (sequences of Unicode scalar values),
  bytes as `Nat` values below 256.
* `utf8_to_b64` / `b64_to_utf8` (the Unicode-safe base64 helpers built from
  `btoa(unescape(encodeURIComponent(s)))` and its inverse) are modelled at the
  byte level: UTF-8 encode then base64 encode, and base64 decode then UTF-8
  decode.  Both decoders are Option-valued because `atob` and
  `decodeURIComponent` throw on malformed input.
* Network interactions are modelled by explicit response oracles
  (`GetResp`, `RawResp`, `DelResp`): each operation is a pure function of the
  responses the remote end produced.  A versioned blob store (`Store`,
  `storeGet`, `storePut`) gives the GitHub Contents API semantics of
  sha-checked read-modify-write for the manifest file `gallery.json`; the
  JSON/base64 transport layer of the store is elided here because its
  round-trip identity is established separately for the codec helpers.
-/

/-- Modelled from the spec: the Artwork record of `types.ts` (that file is not
under src/); fields as documented in the data model section of the spec. -/
structure Artwork where
  id : String
  imageUrl : String
  title : String
  description : String
  medium : String
  tags : List String
  createdAt : Nat
deriving DecidableEq, Repr

/-- Modelled from the spec: the RepoConfig record of `types.ts` (that file is
not under src/): owner, repo, branch and an optional token. -/
structure RepoConfig where
  owner : String
  repo : String
  branch : String
  token : Option String
deriving DecidableEq, Repr

/-- Truthiness of `config.token` in JS: absent and empty strings are falsy. -/
def tokenPresent (cfg : RepoConfig) : Bool :=
  match cfg.token with
  | some t => t ≠ ""
  | none => false

/-- The branch actually used: `config.branch || 'main'` (empty string is
falsy in JS, so it also falls back to main). -/
def effBranch (cfg : RepoConfig) : String :=
  if cfg.branch = "" then "main" else cfg.branch

/-! ### UTF-8 encoding and decoding (byte level) -/

/-- UTF-8 encoding of a single Unicode scalar value, as the byte sequence that
`encodeURIComponent` percent-encodes (equivalently that `unescape` turns into
byte-characters for `btoa`). -/
def utf8EncodeChar (c : Char) : List Nat :=
  let n := c.toNat
  if n < 128 then [n]
  else if n < 2048 then [192 + n / 64, 128 + n % 64]
  else if n < 65536 then [224 + n / 4096, 128 + n / 64 % 64, 128 + n % 64]
  else [240 + n / 262144, 128 + n / 4096 % 64, 128 + n / 64 % 64, 128 + n % 64]

/-- UTF-8 encoding of a string (list of scalar values) into bytes. -/
def utf8Encode : List Char → List Nat
  | [] => []
  | c :: rest => utf8EncodeChar c ++ utf8Encode rest

/-- Whether a byte is a UTF-8 continuation byte (10xxxxxx). -/
def isCont (b : Nat) : Bool := 128 ≤ b && b < 192

/-- Decoding of one UTF-8 scalar value from a leading byte and the remaining
bytes, rejecting truncated sequences, overlong encodings and scalar values
outside the valid range, the way `decodeURIComponent` raises URIError on
malformed input; returns the decoded character and the unconsumed bytes. -/
def utf8DecodeOne (b : Nat) (rest : List Nat) : Option (Char × List Nat) :=
  if b < 128 then some (Char.ofNat b, rest)
  else if b < 192 then none
  else if b < 224 then
    match rest with
    | b2 :: rest2 =>
      if isCont b2 then
        let n := (b - 192) * 64 + (b2 - 128)
        if 128 ≤ n then some (Char.ofNat n, rest2) else none
      else none
    | [] => none
  else if b < 240 then
    match rest with
    | b2 :: b3 :: rest3 =>
      if isCont b2 && isCont b3 then
        let n := (b - 224) * 4096 + (b2 - 128) * 64 + (b3 - 128)
        if 2048 ≤ n ∧ (n < 55296 ∨ 57343 < n) then some (Char.ofNat n, rest3)
        else none
      else none
    | _ => none
  else if b < 248 then
    match rest with
    | b2 :: b3 :: b4 :: rest4 =>
      if isCont b2 && isCont b3 && isCont b4 then
        let n := (b - 240) * 262144 + (b2 - 128) * 4096 + (b3 - 128) * 64 +
          (b4 - 128)
        if 65536 ≤ n ∧ n < 1114112 then some (Char.ofNat n, rest4) else none
      else none
    | _ => none
  else none

set_option maxRecDepth 4096 in
/-- UTF-8 decoding of a whole byte sequence: decode scalar values until the
input is exhausted, none as soon as one is malformed. -/
def utf8Decode (l : List Nat) : Option (List Char) :=
  match l with
  | [] => some []
  | b :: rest =>
    match h : utf8DecodeOne b rest with
    | some (c, rem) => (utf8Decode rem).map (fun cs => c :: cs)
    | none => none
termination_by l.length
decreasing_by
  simp only [List.length_cons]
  have hle : rem.length ≤ rest.length := by
    simp only [utf8DecodeOne] at h
    repeat' split at h
    all_goals cases h
    all_goals (try simp only [List.length_cons])
    all_goals omega
  omega

/-! ### Base64 encoding and decoding (`btoa` / `atob`) -/

/-- The base64 alphabet used by `btoa`. -/
def b64Alphabet : List Char :=
  "ABCDEFGHIJKLMNOPQRSTUVWXYZabcdefghijklmnopqrstuvwxyz0123456789+/".data

/-- Digit value 0..63 to base64 character. -/
def b64CharOf (v : Nat) : Char := b64Alphabet.getD v 'A'

/-- Scan of the alphabet used to invert `b64CharOf`. -/
def b64ValAux : List Char → Char → Nat → Option Nat
  | [], _, _ => none
  | a :: as, c, i => if a = c then some i else b64ValAux as c (i + 1)

/-- Base64 character to its digit value, none for characters outside the
alphabet (those make `atob` throw). -/
def b64ValOf (c : Char) : Option Nat := b64ValAux b64Alphabet c 0

/-- Base64 encoding of a byte sequence (the `btoa` output, with padding). -/
def b64Encode : List Nat → List Char
  | [] => []
  | [b1] => [b64CharOf (b1 / 4), b64CharOf (b1 % 4 * 16), '=', '=']
  | [b1, b2] => [b64CharOf (b1 / 4), b64CharOf (b1 % 4 * 16 + b2 / 16),
      b64CharOf (b2 % 16 * 4), '=']
  | b1 :: b2 :: b3 :: rest =>
      b64CharOf (b1 / 4) :: b64CharOf (b1 % 4 * 16 + b2 / 16) ::
      b64CharOf (b2 % 16 * 4 + b3 / 64) :: b64CharOf (b3 % 64) :: b64Encode rest

/-- Base64 decoding of a character sequence into bytes (`atob`), none when the
input is not well-formed base64. -/
def b64Decode : List Char → Option (List Nat)
  | [] => some []
  | c1 :: c2 :: c3 :: c4 :: rest =>
    match b64ValOf c1, b64ValOf c2 with
    | some v1, some v2 =>
      if c3 = '=' then
        if c4 = '=' ∧ rest = [] then some [v1 * 4 + v2 / 16] else none
      else
        match b64ValOf c3 with
        | some v3 =>
          if c4 = '=' then
            if rest = [] then some [v1 * 4 + v2 / 16, v2 % 16 * 16 + v3 / 4] else none
          else
            match b64ValOf c4 with
            | some v4 =>
              match b64Decode rest with
              | some bs => some ((v1 * 4 + v2 / 16) :: (v2 % 16 * 16 + v3 / 4) ::
                  (v3 % 4 * 64 + v4) :: bs)
              | none => none
            | none => none
        | none => none
    | _, _ => none
  | _ => none

/-- Model of `utf8_to_b64` in githubService.ts:
`window.btoa(unescape(encodeURIComponent(str)))`, i.e. UTF-8 encode then
base64 encode. -/
def utf8_to_b64 (s : List Char) : List Char := b64Encode (utf8Encode s)

/-- Model of `b64_to_utf8` in githubService.ts:
`decodeURIComponent(escape(window.atob(str)))`, i.e. base64 decode then
UTF-8 decode; none models a thrown exception. -/
def b64_to_utf8 (s : List Char) : Option (List Char) :=
  match b64Decode s with
  | some bs => utf8Decode bs
  | none => none

/-! ### Network response oracles and the versioned blob store -/

/-- Outcome of a GET of a content file as observed by the service: `ok` with
the sha and the content field (`none` content field, or a content that fails
base64/JSON decoding, are both possible on a 200), a non-ok HTTP status, or a
thrown network/parse exception before any field was read. -/
inductive GetResp where
  | ok (sha : String) (content : Option (Option (List Artwork)))
  | status (code : Nat)
  | thrown
deriving DecidableEq, Repr

/-- Outcome of the public raw-mirror fetch: a JSON body that is an array,
a JSON body that is not an array, a body that fails to parse, a non-ok
status, or a network exception. -/
inductive RawResp where
  | ok (arr : Option (List Artwork))
  | jsonThrew
  | status (code : Nat)
  | thrown
deriving DecidableEq, Repr

/-- Outcome of the DELETE request for the asset file; its response status is
never inspected by the service, only a thrown exception is observable. -/
inductive DelResp where
  | completed (ok : Bool)
  | thrown
deriving DecidableEq, Repr

/-- The PUT request body the service sends to the Contents API (the content
is kept in decoded form; the base64/JSON wire format is the codec layer). -/
structure PutReq where
  message : String
  content : List Artwork
  sha : Option String
  branch : String
deriving DecidableEq, Repr

/-- A versioned single-file blob store: the manifest file with its current
content and version token, or no file at all. -/
structure Store where
  file : Option (List Artwork × String)
deriving DecidableEq, Repr

/-- The store with no manifest file. -/
def emptyStore : Store := ⟨none⟩

/-- Reading the manifest from the store: the current content and sha, or 404
when the file does not exist. -/
def storeGet (st : Store) : GetResp :=
  match st.file with
  | some (l, sha) => .ok sha (some (some l))
  | none => .status 404

/-- Writing through the Contents API: a write against an existing file must
carry the current sha (otherwise the store rejects it with a conflict), and a
creating write must carry no sha. -/
def storePut (st : Store) (req : PutReq) (freshSha : String) : Except String Store :=
  match st.file with
  | some (_, cur) =>
    match req.sha with
    | some s => if s = cur then .ok ⟨some (req.content, freshSha)⟩
        else .error "Conflict: sha mismatch"
    | none => .error "Conflict: sha required for existing file"
  | none =>
    match req.sha with
    | none => .ok ⟨some (req.content, freshSha)⟩
    | some _ => .error "Not found: sha given for a file that does not exist"

/-! ### fetchGalleryFromGitHub -/

/-- The public mirror URL of the manifest, without the cache-busting query. -/
def rawFileUrlBase (cfg : RepoConfig) : String :=
  "https://raw.githubusercontent.com/" ++ cfg.owner ++ "/" ++ cfg.repo ++ "/" ++
    effBranch cfg ++ "/gallery.json"

/-- The public mirror URL actually fetched, with the cache-busting
`?t=Date.now()` query parameter. -/
def rawUrl (cfg : RepoConfig) (now : Nat) : String :=
  rawFileUrlBase cfg ++ "?t=" ++ Nat.repr now

/-- OPTION 2 of fetchGalleryFromGitHub: the raw-mirror fetch; every failure
mode and every non-array body collapses to the empty list. -/
def rawFetchPhase (raw : RawResp) : List Artwork :=
  match raw with
  | .ok (some l) => l
  | .ok none => []
  | .jsonThrew => []
  | .status _ => []
  | .thrown => []

/-- Model of `fetchGalleryFromGitHub`: guard on owner and repo, then the
authenticated API read when a token is present (404 means empty gallery; a
parsed array is returned directly; anything else falls through), then the
raw-mirror fallback. -/
def fetchGallery (cfg : RepoConfig) (api : GetResp) (raw : RawResp) : List Artwork :=
  if cfg.owner = "" || cfg.repo = "" then []
  else if tokenPresent cfg then
    match api with
    | .ok _ (some (some l)) => l
    | .status c => if c = 404 then [] else rawFetchPhase raw
    | _ => rawFetchPhase raw
  else rawFetchPhase raw

/-! ### updateGalleryManifest -/

/-- Step 1 of `updateGalleryManifest`: the sha and current list recovered
from the GET response.  On a 200 the sha is taken before the content is
parsed, so a missing content field or a failed parse still leaves the sha
set (the enclosing try/catch swallows the parse error); any non-ok status or
thrown fetch leaves no sha and an empty current list. -/
def readForUpdate (g : GetResp) : Option String × List Artwork :=
  match g with
  | .ok sha (some (some l)) => (some sha, l)
  | .ok sha (some none) => (some sha, [])
  | .ok sha none => (some sha, [])
  | .status _ => (none, [])
  | .thrown => (none, [])

/-- Steps 2 and 3 of `updateGalleryManifest`: the PUT request built from the
preceding read, with the new artwork prepended to the current list and the
sha from that read attached. -/
def updateReq (cfg : RepoConfig) (newArtwork : Artwork) (g : GetResp) : PutReq :=
  { message := "Add artwork: " ++ newArtwork.title
    content := newArtwork :: (readForUpdate g).2
    sha := (readForUpdate g).1
    branch := effBranch cfg }

/-- Model of `updateGalleryManifest` against a store, with the read response
supplied explicitly (so stale reads can be expressed).  The result is the
store after the operation together with the thrown error message, if any:
on a rejected PUT the store is unchanged and the error is surfaced. -/
def publishStep (cfg : RepoConfig) (a : Artwork) (g : GetResp) (st : Store)
    (fresh : String) : Store × Option String :=
  if tokenPresent cfg then
    match storePut st (updateReq cfg a g) fresh with
    | .ok st2 => (st2, none)
    | .error e => (st, some e)
  else (st, some "Authentication required")

/-- Model of `updateGalleryManifest` where the read is served by the store
itself (the single-writer run of the operation). -/
def publish (cfg : RepoConfig) (a : Artwork) (st : Store) (fresh : String) :
    Store × Option String :=
  publishStep cfg a (storeGet st) st fresh

/-! ### deleteArtworkFromGitHub -/

/-- The branch-scoped manifest read at the start of `deleteArtworkFromGitHub`:
unlike the append path there is no try/catch, so every non-ok status throws
the could-not-fetch error and a missing or malformed content field throws
the corresponding runtime error. -/
def deleteReadPhase (g : GetResp) : Except String (String × List Artwork) :=
  match g with
  | .ok sha (some (some l)) => .ok (sha, l)
  | .ok _ (some none) => .error "SyntaxError: JSON parse failed"
  | .ok _ none => .error "TypeError: content is undefined"
  | .status _ => .error "Could not fetch gallery manifest to perform deletion"
  | .thrown => .error "NetworkError"

/-- The manifest PUT request of the delete path: the current list with the
target id filtered out, keyed by the sha of the fresh read. -/
def deleteReq (cfg : RepoConfig) (artwork : Artwork) (sha : String)
    (l : List Artwork) : PutReq :=
  { message := "Remove artwork: " ++ artwork.title
    content := l.filter (fun x => x.id != artwork.id)
    sha := some sha
    branch := effBranch cfg }

/-- The raw-URL prefix of the configured repository and branch, stripped by
strategy 1 of the asset-path derivation and produced by the uploader. -/
def rawBase (cfg : RepoConfig) : List Char :=
  "https://raw.githubusercontent.com/".data ++ cfg.owner.data ++ "/".data ++
    cfg.repo.data ++ "/".data ++ (effBranch cfg).data ++ "/".data

/-- Boolean list-prefix test (the `String.startsWith` of strategy 1). -/
def isPrefixOfB : List Char → List Char → Bool
  | [], _ => true
  | _ :: _, [] => false
  | a :: as, b :: bs => a = b && isPrefixOfB as bs

/-- Boolean substring test (the `String.includes` of strategy 2). -/
def containsSub (s : List Char) : List Char → Bool
  | [] => isPrefixOfB s []
  | c :: rest => isPrefixOfB s (c :: rest) || containsSub s rest

/-- Split on a separator character, JS `split` semantics (never empty,
keeps empty fields). -/
def splitChar (sep : Char) : List Char → List (List Char)
  | [] => [[]]
  | c :: rest =>
    if c = sep then [] :: splitChar sep rest
    else
      match splitChar sep rest with
      | [] => [[c]]
      | p :: ps => (c :: p) :: ps

/-- Join with a separator character, JS `Array.join` semantics. -/
def joinSep (sep : Char) : List (List Char) → List Char
  | [] => []
  | [p] => p
  | p :: ps => p ++ sep :: joinSep sep ps

/-- The pathname of a URL as `new URL(u).pathname` computes it for the URLs
this service sees: everything between the authority (after `scheme://`) and
the query or fragment; none models the URL constructor throwing. -/
def urlPathname (u : List Char) : Option (List Char) :=
  match u.dropWhile (fun c => c != ':') with
  | ':' :: '/' :: '/' :: tail =>
    some ((tail.dropWhile (fun c => c != '/' && c != '?' && c != '#')).takeWhile
      (fun c => c != '?' && c != '#'))
  | _ => none

/-- Strategy 2 of the asset-path derivation: the path parts from the first
part equal to `images` onward, joined back with slashes
(`pathParts.slice(pathParts.indexOf('images')).join('/')`). -/
def imagesSuffix : List (List Char) → Option (List Char)
  | [] => none
  | p :: ps => if p = "images".data then some (joinSep '/' (p :: ps))
      else imagesSuffix ps

/-- Hexadecimal digit value used by percent-decoding. -/
def hexVal (c : Char) : Option Nat :=
  if '0' ≤ c ∧ c ≤ '9' then some (c.toNat - 48)
  else if 'A' ≤ c ∧ c ≤ 'F' then some (c.toNat - 55)
  else if 'a' ≤ c ∧ c ≤ 'f' then some (c.toNat - 87)
  else none

/-- One step of percent-decoding: a `%XX` escape contributes the byte XX and
consumes the two hex digits, any other character contributes its UTF-8
bytes; none models a malformed escape. -/
def percentStep (c : Char) (rest : List Char) : Option (List Nat × List Char) :=
  if c = '%' then
    match rest with
    | h1 :: h2 :: rest2 =>
      match hexVal h1, hexVal h2 with
      | some a, some b => some ([a * 16 + b], rest2)
      | _, _ => none
    | _ => none
  else some (utf8EncodeChar c, rest)

/-- The byte stream underlying `decodeURIComponent`: iterate `percentStep`
over the whole input. -/
def percentToBytes (l : List Char) : Option (List Nat) :=
  match l with
  | [] => some []
  | c :: rest =>
    match h : percentStep c rest with
    | some (bs, rem) => (percentToBytes rem).map (fun tl => bs ++ tl)
    | none => none
termination_by l.length
decreasing_by
  simp only [List.length_cons]
  have hle : rem.length ≤ rest.length := by
    simp only [percentStep] at h
    repeat' split at h
    all_goals cases h
    all_goals (try simp only [List.length_cons])
    all_goals omega
  omega

/-- Model of `decodeURIComponent`: percent-decode to bytes, then UTF-8
decode; none models a thrown URIError. -/
def decodeUriComp (l : List Char) : Option (List Char) :=
  match percentToBytes l with
  | some bs => utf8Decode bs
  | none => none

/-- The asset-path derivation of `deleteArtworkFromGitHub` before the
decoding step: strip the raw prefix (strategy 1), otherwise locate the
`images` path segment via the URL pathname (strategy 2), otherwise derive
nothing; `.error` models an exception from the URL constructor. -/
def deriveRawPath (cfg : RepoConfig) (url : List Char) : Except Unit (List Char) :=
  if isPrefixOfB (rawBase cfg) url then .ok (url.drop (rawBase cfg).length)
  else if containsSub "/images/".data url then
    match urlPathname url with
    | none => .error ()
    | some path =>
      match imagesSuffix (splitChar '/' path) with
      | some p => .ok p
      | none => .ok []
  else .ok []

/-- The complete asset-path derivation including the `decodeURIComponent`
applied to a non-empty derived path; `.ok []` means asset deletion is
skipped silently, `.error` models a thrown exception (caught by the
cleanup-phase try/catch). -/
def deriveImagePath (cfg : RepoConfig) (url : List Char) : Except Unit (List Char) :=
  match deriveRawPath cfg url with
  | .error e => .error e
  | .ok [] => .ok []
  | .ok p =>
    match decodeUriComp p with
    | some d => .ok d
    | none => .error ()

/-- Observable outcome of the best-effort asset-cleanup phase. -/
inductive AssetOutcome where
  | skipped
  | deleted
  | loggedNotFound
  | swallowed
deriving DecidableEq, Repr

/-- Step 2 of `deleteArtworkFromGitHub`: the asset cleanup.  The whole phase
sits inside one try/catch, so a derivation exception, a thrown asset GET or
a thrown DELETE all collapse to a logged, swallowed outcome; an empty derived
path skips silently; a non-ok asset GET is logged; the DELETE response itself
is never inspected. -/
def assetCleanup (cfg : RepoConfig) (artwork : Artwork) (imgGet : GetResp)
    (del : DelResp) : AssetOutcome :=
  match deriveImagePath cfg artwork.imageUrl.data with
  | .error _ => .swallowed
  | .ok [] => .skipped
  | .ok _ =>
    match imgGet with
    | .ok _ _ =>
      match del with
      | .completed _ => .deleted
      | .thrown => .swallowed
    | .status _ => .loggedNotFound
    | .thrown => .swallowed

/-- Model of `deleteArtworkFromGitHub` with the manifest read supplied
explicitly: result store, thrown error if any, and the asset-cleanup outcome
when the cleanup phase was reached. -/
def deleteStep (cfg : RepoConfig) (artwork : Artwork) (g : GetResp) (st : Store)
    (fresh : String) (imgGet : GetResp) (del : DelResp) :
    Store × Option String × Option AssetOutcome :=
  if tokenPresent cfg then
    match deleteReadPhase g with
    | .error e => (st, some e, none)
    | .ok (sha, l) =>
      match storePut st (deleteReq cfg artwork sha l) fresh with
      | .error _ => (st, some "Failed to update gallery list", none)
      | .ok st2 => (st2, none, some (assetCleanup cfg artwork imgGet del))
  else (st, some "Authentication required", none)

/-- Model of `deleteArtworkFromGitHub` where the manifest read is served by
the store itself. -/
def deleteArtwork (cfg : RepoConfig) (artwork : Artwork) (st : Store)
    (fresh : String) (imgGet : GetResp) (del : DelResp) :
    Store × Option String × Option AssetOutcome :=
  deleteStep cfg artwork (storeGet st) st fresh imgGet del

/-! ### uploadImageToGitHub -/

/-- The character class kept by the filename sanitizer
`file.name.replace(/[^a-zA-Z0-9.-]/g, '')`: ASCII letters, digits, dot and
hyphen (stated on code points). -/
def keepChar (c : Char) : Bool :=
  (97 ≤ c.toNat && c.toNat ≤ 122) || (65 ≤ c.toNat && c.toNat ≤ 90) ||
    (48 ≤ c.toNat && c.toNat ≤ 57) || c.toNat == 46 || c.toNat == 45

/-- The character class of a fully sanitized filename: lowercase ASCII
letters, digits, dot and hyphen. -/
def sanitizedChar (c : Char) : Bool :=
  (97 ≤ c.toNat && c.toNat ≤ 122) || (48 ≤ c.toNat && c.toNat ≤ 57) ||
    c.toNat == 46 || c.toNat == 45

/-- The sanitized filename: strip disallowed characters, then lowercase. -/
def cleanFileName (name : List Char) : List Char :=
  (name.filter keepChar).map Char.toLower

/-- The store-relative path the uploader writes:
`images/Date.now()-cleanName` (ts is the decimal rendering of the
timestamp). -/
def uploadPath (name ts : List Char) : List Char :=
  "images/".data ++ ts ++ "-".data ++ cleanFileName name

/-- The raw URL `uploadImageToGitHub` returns on success. -/
def uploadUrl (cfg : RepoConfig) (name ts : List Char) : List Char :=
  rawBase cfg ++ uploadPath name ts

/-! ## Helper lemmas -/

theorem char_toNat_valid (c : Char) :
    c.toNat < 55296 ∨ (57343 < c.toNat ∧ c.toNat < 1114112) := by
  rcases c.valid with h | ⟨h1, h2⟩
  · left; exact h
  · right; exact ⟨h1, h2⟩

theorem char_toNat_lt (c : Char) : c.toNat < 1114112 := by
  rcases char_toNat_valid c with h | ⟨_, h2⟩ <;> omega

theorem b64ValOf_b64CharOf : ∀ v : Nat, v < 64 → b64ValOf (b64CharOf v) = some v := by
  decide

theorem b64CharOf_ne_pad : ∀ v : Nat, v < 64 → ¬(b64CharOf v = '=') := by
  decide

theorem b64Decode_b64Encode : ∀ bs : List Nat, (∀ b ∈ bs, b < 256) →
    b64Decode (b64Encode bs) = some bs
  | [], _ => rfl
  | [b1], h => by
    have hb1 : b1 < 256 := h b1 (by simp)
    have e1 := b64ValOf_b64CharOf (b1 / 4) (by omega)
    have e2 := b64ValOf_b64CharOf (b1 % 4 * 16) (by omega)
    simp only [b64Encode, b64Decode, e1, e2]
    simp only [if_pos rfl, and_self, if_pos]
    have : b1 / 4 * 4 + b1 % 4 * 16 / 16 = b1 := by omega
    rw [this]
  | [b1, b2], h => by
    have hb1 : b1 < 256 := h b1 (by simp)
    have hb2 : b2 < 256 := h b2 (by simp)
    have e1 := b64ValOf_b64CharOf (b1 / 4) (by omega)
    have e2 := b64ValOf_b64CharOf (b1 % 4 * 16 + b2 / 16) (by omega)
    have e3 := b64ValOf_b64CharOf (b2 % 16 * 4) (by omega)
    have n3 := b64CharOf_ne_pad (b2 % 16 * 4) (by omega)
    simp only [b64Encode, b64Decode, e1, e2, e3, if_neg n3, if_pos rfl]
    have r1 : b1 / 4 * 4 + (b1 % 4 * 16 + b2 / 16) / 16 = b1 := by omega
    have r2 : (b1 % 4 * 16 + b2 / 16) % 16 * 16 + b2 % 16 * 4 / 4 = b2 := by omega
    rw [r1, r2]
    simp
  | b1 :: b2 :: b3 :: rest, h => by
    have hb1 : b1 < 256 := h b1 (by simp)
    have hb2 : b2 < 256 := h b2 (by simp)
    have hb3 : b3 < 256 := h b3 (by simp)
    have ih := b64Decode_b64Encode rest (fun b hb => h b (by simp [hb]))
    have e1 := b64ValOf_b64CharOf (b1 / 4) (by omega)
    have e2 := b64ValOf_b64CharOf (b1 % 4 * 16 + b2 / 16) (by omega)
    have e3 := b64ValOf_b64CharOf (b2 % 16 * 4 + b3 / 64) (by omega)
    have e4 := b64ValOf_b64CharOf (b3 % 64) (by omega)
    have n3 := b64CharOf_ne_pad (b2 % 16 * 4 + b3 / 64) (by omega)
    have n4 := b64CharOf_ne_pad (b3 % 64) (by omega)
    simp only [b64Encode, b64Decode, e1, e2, e3, e4, if_neg n3, if_neg n4, ih]
    have r1 : b1 / 4 * 4 + (b1 % 4 * 16 + b2 / 16) / 16 = b1 := by omega
    have r2 : (b1 % 4 * 16 + b2 / 16) % 16 * 16 + (b2 % 16 * 4 + b3 / 64) / 4 = b2 := by
      omega
    have r3 : (b2 % 16 * 4 + b3 / 64) % 4 * 64 + b3 % 64 = b3 := by omega
    rw [r1, r2, r3]

theorem utf8EncodeChar_lt (c : Char) : ∀ b ∈ utf8EncodeChar c, b < 256 := by
  have hv := char_toNat_lt c
  intro b hb
  simp only [utf8EncodeChar] at hb
  split at hb
  · simp only [List.mem_singleton] at hb
    omega
  · split at hb
    · simp only [List.mem_cons, List.not_mem_nil, or_false] at hb
      rcases hb with rfl | rfl <;> omega
    · split at hb
      · simp only [List.mem_cons, List.not_mem_nil, or_false] at hb
        rcases hb with rfl | rfl | rfl <;> omega
      · simp only [List.mem_cons, List.not_mem_nil, or_false] at hb
        rcases hb with rfl | rfl | rfl | rfl <;> omega

theorem utf8Encode_lt (s : List Char) : ∀ b ∈ utf8Encode s, b < 256 := by
  induction s with
  | nil => intro b hb; simp [utf8Encode] at hb
  | cons c rest ih =>
    intro b hb
    simp only [utf8Encode, List.mem_append] at hb
    rcases hb with hb | hb
    · exact utf8EncodeChar_lt c b hb
    · exact ih b hb

theorem utf8Decode_cons (b : Nat) (rest : List Nat) :
    utf8Decode (b :: rest) =
      match utf8DecodeOne b rest with
      | some (c, rem) => (utf8Decode rem).map (fun cs => c :: cs)
      | none => none := by
  rw [utf8Decode]
  split
  · rename_i c rem heq
    rw [heq]
  · rename_i heq
    rw [heq]

theorem utf8DecodeOne_encodeChar (c : Char) (rest : List Nat) :
    ∃ tl : List Nat, utf8EncodeChar c ++ rest = utf8EncodeChar c ++ tl ∧
      utf8DecodeOne ((utf8EncodeChar c).headD 0) ((utf8EncodeChar c).tail ++ rest) =
        some (c, rest) := by
  exact ⟨rest, rfl, by
    have hval := char_toNat_valid c
    by_cases h1 : c.toNat < 128
    · simp only [utf8EncodeChar, if_pos h1, List.headD, List.tail, List.nil_append]
      simp only [utf8DecodeOne, if_pos h1, Char.ofNat_toNat]
    · by_cases h2 : c.toNat < 2048
      · have hc : isCont (128 + c.toNat % 64) = true := by
          simp only [isCont, Bool.and_eq_true, decide_eq_true_eq]
          omega
        simp only [utf8EncodeChar, if_neg h1, if_pos h2, List.headD, List.tail,
          List.cons_append, List.nil_append]
        simp only [utf8DecodeOne]
        rw [if_neg (by omega), if_neg (by omega), if_pos (by omega)]
        simp only [hc, if_pos]
        have hn : (192 + c.toNat / 64 - 192) * 64 + (128 + c.toNat % 64 - 128) =
            c.toNat := by omega
        rw [hn, if_pos (by omega), Char.ofNat_toNat]
      · by_cases h3 : c.toNat < 65536
        · have hc2 : isCont (128 + c.toNat / 64 % 64) = true := by
            simp only [isCont, Bool.and_eq_true, decide_eq_true_eq]
            omega
          have hc3 : isCont (128 + c.toNat % 64) = true := by
            simp only [isCont, Bool.and_eq_true, decide_eq_true_eq]
            omega
          simp only [utf8EncodeChar, if_neg h1, if_neg h2, if_pos h3, List.headD,
            List.tail, List.cons_append, List.nil_append]
          simp only [utf8DecodeOne]
          rw [if_neg (by omega), if_neg (by omega), if_neg (by omega),
            if_pos (by omega)]
          simp only [hc2, hc3, Bool.and_self, if_pos]
          have hn : (224 + c.toNat / 4096 - 224) * 4096 +
              (128 + c.toNat / 64 % 64 - 128) * 64 + (128 + c.toNat % 64 - 128) =
              c.toNat := by omega
          rw [hn, if_pos (by omega : 2048 ≤ c.toNat ∧
            (c.toNat < 55296 ∨ 57343 < c.toNat)), Char.ofNat_toNat]
        · have h4 : c.toNat < 1114112 := char_toNat_lt c
          have hc2 : isCont (128 + c.toNat / 4096 % 64) = true := by
            simp only [isCont, Bool.and_eq_true, decide_eq_true_eq]
            omega
          have hc3 : isCont (128 + c.toNat / 64 % 64) = true := by
            simp only [isCont, Bool.and_eq_true, decide_eq_true_eq]
            omega
          have hc4 : isCont (128 + c.toNat % 64) = true := by
            simp only [isCont, Bool.and_eq_true, decide_eq_true_eq]
            omega
          simp only [utf8EncodeChar, if_neg h1, if_neg h2, if_neg h3, List.headD,
            List.tail, List.cons_append, List.nil_append]
          simp only [utf8DecodeOne]
          rw [if_neg (by omega), if_neg (by omega), if_neg (by omega),
            if_neg (by omega), if_pos (by omega)]
          simp only [hc2, hc3, hc4, Bool.and_self, if_pos]
          have hn : (240 + c.toNat / 262144 - 240) * 262144 +
              (128 + c.toNat / 4096 % 64 - 128) * 4096 +
              (128 + c.toNat / 64 % 64 - 128) * 64 + (128 + c.toNat % 64 - 128) =
              c.toNat := by omega
          rw [hn, if_pos (by omega : 65536 ≤ c.toNat ∧ c.toNat < 1114112),
            Char.ofNat_toNat]⟩

theorem utf8EncodeChar_ne_nil (c : Char) : utf8EncodeChar c ≠ [] := by
  simp only [utf8EncodeChar]
  split
  · simp
  · split
    · simp
    · split <;> simp

theorem utf8Decode_encodeChar (c : Char) (rest : List Nat) :
    utf8Decode (utf8EncodeChar c ++ rest) =
      (utf8Decode rest).map (fun cs => c :: cs) := by
  obtain ⟨tl, _, hone⟩ := utf8DecodeOne_encodeChar c rest
  have hne := utf8EncodeChar_ne_nil c
  have hsplit : utf8EncodeChar c ++ rest =
      (utf8EncodeChar c).headD 0 :: ((utf8EncodeChar c).tail ++ rest) := by
    cases he : utf8EncodeChar c with
    | nil => exact absurd he hne
    | cons x xs => simp [List.headD, List.tail]
  rw [hsplit, utf8Decode_cons, hone]

theorem utf8Decode_utf8Encode : ∀ s : List Char, utf8Decode (utf8Encode s) = some s
  | [] => by
    show utf8Decode [] = some []
    rw [utf8Decode]
  | c :: rest => by
    have ih := utf8Decode_utf8Encode rest
    show utf8Decode (utf8EncodeChar c ++ utf8Encode rest) = some (c :: rest)
    rw [utf8Decode_encodeChar, ih]
    rfl

/-- C9: for every string s (as a sequence of Unicode scalar values, including
non-ASCII text such as the title Café au Lait), decoding with b64_to_utf8
after encoding with utf8_to_b64 returns s exactly. -/
theorem c9_b64_utf8_roundtrip :
    (∀ s : List Char, b64_to_utf8 (utf8_to_b64 s) = some s) ∧
    b64_to_utf8 (utf8_to_b64 "Café au Lait".data) = some "Café au Lait".data := by
  have main : ∀ s : List Char, b64_to_utf8 (utf8_to_b64 s) = some s := by
    intro s
    unfold utf8_to_b64 b64_to_utf8
    rw [b64Decode_b64Encode _ (utf8Encode_lt s)]
    exact utf8Decode_utf8Encode s
  exact ⟨main, main _⟩

/-! ## Manifest append (updateGalleryManifest) -/

/-- C1: for every current remote manifest state, the append operation writes
back exactly the new record prepended to the sequence obtained from its own
preceding read (no dedup, no sort); publishing twice from an empty store
yields a manifest of size 2 with the newest record first, and the second
write carries the sha returned by the read that immediately preceded it. -/
theorem c1_publish_prepends (cfg : RepoConfig) (a b : Artwork) (s1 s2 : String)
    (htok : tokenPresent cfg = true) :
    (∀ g : GetResp, (updateReq cfg a g).content = a :: (readForUpdate g).2 ∧
      (updateReq cfg a g).sha = (readForUpdate g).1) ∧
    publish cfg a emptyStore s1 = (⟨some ([a], s1)⟩, none) ∧
    publish cfg b ⟨some ([a], s1)⟩ s2 = (⟨some ([b, a], s2)⟩, none) ∧
    (updateReq cfg b (storeGet ⟨some ([a], s1)⟩)).sha = some s1 := by
  refine ⟨fun g => ⟨rfl, rfl⟩, ?_, ?_, rfl⟩
  · simp [publish, publishStep, htok, emptyStore, storeGet, storePut, updateReq,
      readForUpdate]
  · simp [publish, publishStep, htok, storeGet, storePut, updateReq,
      readForUpdate]

theorem c1_witness :
    tokenPresent ⟨"alice", "art", "", some "tok"⟩ = true ∧
    publish ⟨"alice", "art", "", some "tok"⟩
        ⟨"id1", "u1", "t1", "d1", "m1", [], 1⟩ emptyStore "sha1" =
      (⟨some ([⟨"id1", "u1", "t1", "d1", "m1", [], 1⟩], "sha1")⟩, none) :=
  ⟨by decide,
    (c1_publish_prepends ⟨"alice", "art", "", some "tok"⟩
      ⟨"id1", "u1", "t1", "d1", "m1", [], 1⟩
      ⟨"id2", "u2", "t2", "d2", "m2", [], 2⟩ "sha1" "sha2" (by decide)).2.1⟩

/-- C6: when the read preceding a publish returns 404, updateGalleryManifest
treats the current content as the empty sequence and issues the write with no
version token (a creating write), producing a manifest of size 1 containing
exactly the new record. -/
theorem c6_publish_404_creating_write (cfg : RepoConfig) (a : Artwork)
    (fresh : String) (htok : tokenPresent cfg = true) :
    (updateReq cfg a (GetResp.status 404)).sha = none ∧
    (updateReq cfg a (GetResp.status 404)).content = [a] ∧
    storeGet emptyStore = GetResp.status 404 ∧
    publish cfg a emptyStore fresh = (⟨some ([a], fresh)⟩, none) := by
  refine ⟨rfl, rfl, rfl, ?_⟩
  simp [publish, publishStep, htok, emptyStore, storeGet, storePut, updateReq,
    readForUpdate]

theorem c6_witness :
    tokenPresent ⟨"alice", "art", "main", some "tok"⟩ = true ∧
    (updateReq ⟨"alice", "art", "main", some "tok"⟩
      ⟨"id1", "u1", "t1", "d1", "m1", [], 1⟩ (GetResp.status 404)).sha = none ∧
    publish ⟨"alice", "art", "main", some "tok"⟩
        ⟨"id1", "u1", "t1", "d1", "m1", [], 1⟩ emptyStore "sha9" =
      (⟨some ([⟨"id1", "u1", "t1", "d1", "m1", [], 1⟩], "sha9")⟩, none) :=
  ⟨by decide,
    (c6_publish_404_creating_write ⟨"alice", "art", "main", some "tok"⟩
      ⟨"id1", "u1", "t1", "d1", "m1", [], 1⟩ "sha9" (by decide)).1,
    (c6_publish_404_creating_write ⟨"alice", "art", "main", some "tok"⟩
      ⟨"id1", "u1", "t1", "d1", "m1", [], 1⟩ "sha9" (by decide)).2.2.2⟩

/-- C4: if the store rejects the manifest PUT because the attached version
token does not match the current revision, the append operation surfaces the
error to the caller and the stored manifest remains unchanged; there is no
retry and no merge. -/
theorem c4_stale_write_fails (cfg : RepoConfig) (a : Artwork) (g : GetResp)
    (st : Store) (l : List Artwork) (cur fresh : String)
    (htok : tokenPresent cfg = true) (hst : st.file = some (l, cur))
    (hstale : (updateReq cfg a g).sha ≠ some cur) :
    ∃ e : String, publishStep cfg a g st fresh = (st, some e) := by
  rcases hsha : (updateReq cfg a g).sha with _ | s
  · exact ⟨"Conflict: sha required for existing file",
      by simp [publishStep, htok, storePut, hst, hsha]⟩
  · have hne : ¬(s = cur) := by
      intro hcontra
      exact hstale (by rw [hsha, hcontra])
    exact ⟨"Conflict: sha mismatch",
      by simp [publishStep, htok, storePut, hst, hsha, hne]⟩

theorem c4_witness :
    tokenPresent ⟨"alice", "art", "", some "tok"⟩ = true ∧
    (⟨some ([], "curSha")⟩ : Store).file = some ([], "curSha") ∧
    (updateReq ⟨"alice", "art", "", some "tok"⟩
      ⟨"id1", "u1", "t1", "d1", "m1", [], 1⟩
      (GetResp.ok "staleSha" (some (some [])))).sha ≠ some "curSha" ∧
    ∃ e : String, publishStep ⟨"alice", "art", "", some "tok"⟩
      ⟨"id1", "u1", "t1", "d1", "m1", [], 1⟩
      (GetResp.ok "staleSha" (some (some []))) ⟨some ([], "curSha")⟩ "f" =
        (⟨some ([], "curSha")⟩, some e) :=
  ⟨by decide, rfl, by decide,
    c4_stale_write_fails ⟨"alice", "art", "", some "tok"⟩
      ⟨"id1", "u1", "t1", "d1", "m1", [], 1⟩
      (GetResp.ok "staleSha" (some (some []))) ⟨some ([], "curSha")⟩ []
      "curSha" "f" (by decide) rfl (by decide)⟩

/-! ## Manifest read (fetchGalleryFromGitHub) -/

/-- C2: the read operation is total (it returns a list for every response
pattern): an authenticated 404 yields the empty sequence without consulting
the mirror; any other authenticated-read failure, or absence of a credential,
falls back to the raw-mirror fetch, whose URL carries the cache-busting query
parameter; and every failure mode of the fallback yields the empty sequence,
so the caller cannot distinguish no data from fetch failed. -/
theorem c2_fetch_total_fallback (cfg : RepoConfig) (api : GetResp)
    (raw : RawResp) (sha : String) (code now : Nat)
    (hown : cfg.owner ≠ "") (hrepo : cfg.repo ≠ "") :
    (tokenPresent cfg = true → fetchGallery cfg (.status 404) raw = []) ∧
    (tokenPresent cfg = true → code ≠ 404 →
      fetchGallery cfg (.status code) raw = rawFetchPhase raw) ∧
    (tokenPresent cfg = true →
      fetchGallery cfg .thrown raw = rawFetchPhase raw ∧
      fetchGallery cfg (.ok sha none) raw = rawFetchPhase raw ∧
      fetchGallery cfg (.ok sha (some none)) raw = rawFetchPhase raw) ∧
    (tokenPresent cfg = false → fetchGallery cfg api raw = rawFetchPhase raw) ∧
    (rawFetchPhase (.ok none) = [] ∧ rawFetchPhase .jsonThrew = [] ∧
      rawFetchPhase (.status code) = [] ∧ rawFetchPhase .thrown = []) ∧
    rawUrl cfg now = rawFileUrlBase cfg ++ "?t=" ++ Nat.repr now := by
  refine ⟨?_, ?_, ?_, ?_, ⟨rfl, rfl, rfl, rfl⟩, rfl⟩
  · intro htok
    simp [fetchGallery, hown, hrepo, htok]
  · intro htok hcode
    simp [fetchGallery, hown, hrepo, htok, hcode]
  · intro htok
    refine ⟨?_, ?_, ?_⟩ <;> simp [fetchGallery, hown, hrepo, htok]
  · intro htok
    simp [fetchGallery, hown, hrepo, htok]

theorem c2_witness :
    (⟨"alice", "art", "", some "tok"⟩ : RepoConfig).owner ≠ "" ∧
    (⟨"alice", "art", "", some "tok"⟩ : RepoConfig).repo ≠ "" ∧
    (tokenPresent ⟨"alice", "art", "", some "tok"⟩ = true →
      fetchGallery ⟨"alice", "art", "", some "tok"⟩ (.status 404) .thrown = []) :=
  ⟨by decide, by decide,
    (c2_fetch_total_fallback ⟨"alice", "art", "", some "tok"⟩ .thrown .thrown
      "s" 500 7 (by decide) (by decide)).1⟩

/-! ## Manifest remove (deleteArtworkFromGitHub) -/

/-- C7: the remove operation hard-fails with no write whenever its initial
branch-scoped manifest read does not come back ok (any non-ok status,
including 404, and thrown fetches), in contrast with the append operation,
which tolerates a failed read and proceeds with a creating write. -/
theorem c7_delete_hard_fails_on_bad_read (cfg : RepoConfig) (aw a2 : Artwork)
    (st : Store) (fresh : String) (imgGet : GetResp) (del : DelResp)
    (htok : tokenPresent cfg = true) :
    (∀ code : Nat, deleteStep cfg aw (.status code) st fresh imgGet del =
      (st, some "Could not fetch gallery manifest to perform deletion", none)) ∧
    deleteStep cfg aw .thrown st fresh imgGet del =
      (st, some "NetworkError", none) ∧
    deleteArtwork cfg aw emptyStore fresh imgGet del =
      (emptyStore, some "Could not fetch gallery manifest to perform deletion",
        none) ∧
    publish cfg a2 emptyStore fresh = (⟨some ([a2], fresh)⟩, none) := by
  refine ⟨?_, ?_, ?_, ?_⟩
  · intro code
    simp [deleteStep, htok, deleteReadPhase]
  · simp [deleteStep, htok, deleteReadPhase]
  · simp [deleteArtwork, deleteStep, htok, emptyStore, storeGet, deleteReadPhase]
  · simp [publish, publishStep, htok, emptyStore, storeGet, storePut, updateReq,
      readForUpdate]

theorem c7_witness :
    tokenPresent ⟨"alice", "art", "", some "tok"⟩ = true ∧
    deleteArtwork ⟨"alice", "art", "", some "tok"⟩
        ⟨"id1", "u1", "t1", "d1", "m1", [], 1⟩ emptyStore "f" .thrown .thrown =
      (emptyStore, some "Could not fetch gallery manifest to perform deletion",
        none) :=
  ⟨by decide,
    (c7_delete_hard_fails_on_bad_read ⟨"alice", "art", "", some "tok"⟩
      ⟨"id1", "u1", "t1", "d1", "m1", [], 1⟩
      ⟨"id1", "u1", "t1", "d1", "m1", [], 1⟩ emptyStore "f" .thrown .thrown
      (by decide)).2.2.1⟩

/-- C5: once the manifest update of the remove operation has succeeded, the
overall operation returns successfully whatever the asset-cleanup phase does:
the result is determined by the manifest phase alone, for every derivation
outcome and every asset GET or DELETE response (underivable path, not found,
thrown network error, and so on). -/
theorem c5_cleanup_cannot_fail_delete (cfg : RepoConfig) (aw : Artwork)
    (g : GetResp) (st st2 : Store) (sha fresh : String) (l : List Artwork)
    (imgGet : GetResp) (del : DelResp)
    (htok : tokenPresent cfg = true)
    (hread : deleteReadPhase g = .ok (sha, l))
    (hput : storePut st (deleteReq cfg aw sha l) fresh = .ok st2) :
    deleteStep cfg aw g st fresh imgGet del =
      (st2, none, some (assetCleanup cfg aw imgGet del)) ∧
    (deleteStep cfg aw g st fresh imgGet del).2.1 = none := by
  have hrun : deleteStep cfg aw g st fresh imgGet del =
      (st2, none, some (assetCleanup cfg aw imgGet del)) := by
    simp [deleteStep, htok, hread, hput]
  exact ⟨hrun, by rw [hrun]⟩

theorem c5_witness :
    tokenPresent ⟨"alice", "art", "", some "tok"⟩ = true ∧
    deleteReadPhase (GetResp.ok "s0"
      (some (some [⟨"id1", "", "t1", "d1", "m1", [], 1⟩]))) =
      .ok ("s0", [⟨"id1", "", "t1", "d1", "m1", [], 1⟩]) ∧
    storePut ⟨some ([⟨"id1", "", "t1", "d1", "m1", [], 1⟩], "s0")⟩
      (deleteReq ⟨"alice", "art", "", some "tok"⟩
        ⟨"id1", "", "t1", "d1", "m1", [], 1⟩ "s0"
        [⟨"id1", "", "t1", "d1", "m1", [], 1⟩]) "s1" = .ok ⟨some ([], "s1")⟩ ∧
    (deleteStep ⟨"alice", "art", "", some "tok"⟩
      ⟨"id1", "", "t1", "d1", "m1", [], 1⟩
      (GetResp.ok "s0" (some (some [⟨"id1", "", "t1", "d1", "m1", [], 1⟩])))
      ⟨some ([⟨"id1", "", "t1", "d1", "m1", [], 1⟩], "s0")⟩ "s1"
      .thrown .thrown).2.1 = none :=
  ⟨by decide, rfl, rfl,
    (c5_cleanup_cannot_fail_delete ⟨"alice", "art", "", some "tok"⟩
      ⟨"id1", "", "t1", "d1", "m1", [], 1⟩
      (GetResp.ok "s0" (some (some [⟨"id1", "", "t1", "d1", "m1", [], 1⟩])))
      ⟨some ([⟨"id1", "", "t1", "d1", "m1", [], 1⟩], "s0")⟩ ⟨some ([], "s1")⟩
      "s0" "s1" [⟨"id1", "", "t1", "d1", "m1", [], 1⟩] .thrown .thrown
      (by decide) rfl rfl).2⟩

theorem filter_ne_id_length (t : String) : ∀ l : List Artwork,
    (l.map Artwork.id).Nodup → t ∈ l.map Artwork.id →
    (l.filter (fun x => x.id != t)).length = l.length - 1
  | [], _, hmem => by simp at hmem
  | x :: xs, hnodup, hmem => by
    simp only [List.map_cons, List.nodup_cons] at hnodup
    obtain ⟨hnotin, hnodup2⟩ := hnodup
    by_cases hx : x.id = t
    · have hall : ∀ a ∈ xs, (a.id != t) = true := by
        intro a ha
        simp only [bne_iff_ne, ne_eq]
        intro hcontra
        exact hnotin (by
          rw [hx, ← hcontra]
          exact List.mem_map_of_mem Artwork.id ha)
      have hfx : (x.id != t) = false := by
        simp only [bne_eq_false_iff_eq]
        exact hx
      simp only [List.filter_cons, hfx, Bool.false_eq_true, if_false,
        List.filter_eq_self.mpr hall, List.length_cons]
      omega
    · have hmem2 : t ∈ xs.map Artwork.id := by
        simp only [List.map_cons, List.mem_cons] at hmem
        rcases hmem with h | h
        · exact absurd h.symm hx
        · exact h
      have ih := filter_ne_id_length t xs hnodup2 hmem2
      have hlen : 1 ≤ xs.length := by
        rcases xs with _ | ⟨y, ys⟩
        · simp at hmem2
        · simp
      have hfx : (x.id != t) = true := by
        simp only [bne_iff_ne, ne_eq]
        exact hx
      simp only [List.filter_cons, hfx, if_pos, List.length_cons, ih]
      omega

/-- C3: for every manifest whose ids are unique and contain the target id,
the remove operation writes back the sequence with exactly that record
filtered out — size N−1, every other record preserved, relative order
unchanged (the written list is a sublist of the original) — keyed by the
version token obtained from its own fresh read. -/
theorem c3_delete_filters_target (cfg : RepoConfig) (aw : Artwork) (st : Store)
    (l : List Artwork) (sha fresh : String) (imgGet : GetResp) (del : DelResp)
    (htok : tokenPresent cfg = true) (hst : st.file = some (l, sha))
    (hnodup : (l.map Artwork.id).Nodup) (hmem : aw.id ∈ l.map Artwork.id) :
    deleteArtwork cfg aw st fresh imgGet del =
      (⟨some (l.filter (fun x => x.id != aw.id), fresh)⟩, none,
        some (assetCleanup cfg aw imgGet del)) ∧
    (deleteReq cfg aw sha l).sha = some sha ∧
    (deleteReq cfg aw sha l).content = l.filter (fun x => x.id != aw.id) ∧
    (l.filter (fun x => x.id != aw.id)).length = l.length - 1 ∧
    (∀ x ∈ l, x.id ≠ aw.id → x ∈ l.filter (fun x => x.id != aw.id)) ∧
    (l.filter (fun x => x.id != aw.id)).Sublist l := by
  refine ⟨?_, rfl, rfl, filter_ne_id_length aw.id l hnodup hmem, ?_,
    List.filter_sublist l⟩
  · simp [deleteArtwork, deleteStep, htok, storeGet, hst, deleteReadPhase,
      storePut, deleteReq]
  · intro x hx hne
    simp only [List.mem_filter, bne_iff_ne, ne_eq]
    exact ⟨hx, by simpa using hne⟩

theorem c3_witness :
    tokenPresent ⟨"alice", "art", "", some "tok"⟩ = true ∧
    (⟨some ([⟨"id1", "", "t1", "d1", "m1", [], 1⟩,
        ⟨"id2", "", "t2", "d2", "m2", [], 2⟩], "s0")⟩ : Store).file =
      some ([⟨"id1", "", "t1", "d1", "m1", [], 1⟩,
        ⟨"id2", "", "t2", "d2", "m2", [], 2⟩], "s0") ∧
    ([⟨"id1", "", "t1", "d1", "m1", [], 1⟩,
        ⟨"id2", "", "t2", "d2", "m2", [], 2⟩].map Artwork.id).Nodup ∧
    (⟨"id2", "", "t2", "d2", "m2", [], 2⟩ : Artwork).id ∈
      [⟨"id1", "", "t1", "d1", "m1", [], 1⟩,
        ⟨"id2", "", "t2", "d2", "m2", [], 2⟩].map Artwork.id ∧
    deleteArtwork ⟨"alice", "art", "", some "tok"⟩
        ⟨"id2", "", "t2", "d2", "m2", [], 2⟩
        ⟨some ([⟨"id1", "", "t1", "d1", "m1", [], 1⟩,
          ⟨"id2", "", "t2", "d2", "m2", [], 2⟩], "s0")⟩ "s1" .thrown .thrown =
      (⟨some ([⟨"id1", "", "t1", "d1", "m1", [], 1⟩], "s1")⟩, none,
        some (assetCleanup ⟨"alice", "art", "", some "tok"⟩
          ⟨"id2", "", "t2", "d2", "m2", [], 2⟩ .thrown .thrown)) :=
  ⟨by decide, rfl, by decide, by decide, by
    have h := (c3_delete_filters_target ⟨"alice", "art", "", some "tok"⟩
      ⟨"id2", "", "t2", "d2", "m2", [], 2⟩
      ⟨some ([⟨"id1", "", "t1", "d1", "m1", [], 1⟩,
        ⟨"id2", "", "t2", "d2", "m2", [], 2⟩], "s0")⟩
      [⟨"id1", "", "t1", "d1", "m1", [], 1⟩,
        ⟨"id2", "", "t2", "d2", "m2", [], 2⟩] "s0" "s1" .thrown .thrown
      (by decide) rfl (by decide) (by decide)).1
    simpa using h⟩

/-! ## Helper lemmas for URL and path derivation -/

theorem isPrefixOfB_append (p s : List Char) : isPrefixOfB p (p ++ s) = true := by
  induction p with
  | nil => rfl
  | cons a as ih => simp [isPrefixOfB, ih]

theorem containsSub_middle (s : List Char) : ∀ x y : List Char,
    containsSub s (x ++ (s ++ y)) = true
  | [], y => by
    cases hs : s ++ y with
    | nil =>
      rcases List.append_eq_nil.mp hs with ⟨rfl, rfl⟩
      rfl
    | cons c rest =>
      simp only [List.nil_append, hs, containsSub, Bool.or_eq_true]
      left
      rw [← hs]
      exact isPrefixOfB_append s y
  | c :: x, y => by
    simp only [List.cons_append, containsSub, Bool.or_eq_true]
    right
    exact containsSub_middle s x y

theorem dropWhile_append_all (p : Char → Bool) (a b : List Char)
    (h : ∀ c ∈ a, p c = true) : (a ++ b).dropWhile p = b.dropWhile p := by
  induction a with
  | nil => rfl
  | cons c cs ih =>
    simp only [List.cons_append, List.dropWhile_cons, h c (by simp), if_true]
    exact ih (fun d hd => h d (by simp [hd]))

theorem takeWhile_all (p : Char → Bool) (l : List Char)
    (h : ∀ c ∈ l, p c = true) : l.takeWhile p = l := by
  induction l with
  | nil => rfl
  | cons c cs ih =>
    simp only [List.takeWhile_cons, h c (by simp), if_true, List.cons.injEq,
      true_and]
    exact ih (fun d hd => h d (by simp [hd]))

theorem splitChar_ne_nil (sep : Char) (l : List Char) : splitChar sep l ≠ [] := by
  cases l with
  | nil => simp [splitChar]
  | cons c cs =>
    simp only [splitChar]
    split
    · simp
    · split <;> simp

theorem splitChar_no_sep (sep : Char) (l : List Char)
    (h : ∀ c ∈ l, c ≠ sep) : splitChar sep l = [l] := by
  induction l with
  | nil => rfl
  | cons c cs ih =>
    have hc : ¬(c = sep) := h c (by simp)
    simp only [splitChar, if_neg hc, ih (fun d hd => h d (by simp [hd]))]

theorem splitChar_append (sep : Char) : ∀ a b : List Char,
    (∀ c ∈ a, c ≠ sep) → splitChar sep (a ++ sep :: b) = a :: splitChar sep b
  | [], b, _ => by simp [splitChar]
  | c :: a, b, h => by
    have hc : ¬(c = sep) := h c (by simp)
    have ih := splitChar_append sep a b (fun d hd => h d (by simp [hd]))
    simp only [List.cons_append, splitChar, if_neg hc, List.append_eq, ih]

theorem joinSep_splitChar (sep : Char) : ∀ l : List Char,
    joinSep sep (splitChar sep l) = l
  | [] => rfl
  | c :: cs => by
    have ih := joinSep_splitChar sep cs
    by_cases hc : c = sep
    · subst hc
      simp only [splitChar, if_pos rfl]
      cases hs : splitChar c cs with
      | nil => exact absurd hs (splitChar_ne_nil c cs)
      | cons p ps =>
        rw [hs] at ih
        simp only [joinSep, List.nil_append]
        rw [ih]
    · simp only [splitChar, if_neg hc]
      cases hs : splitChar sep cs with
      | nil => exact absurd hs (splitChar_ne_nil sep cs)
      | cons p ps =>
        rw [hs] at ih
        cases ps with
        | nil => simp only [joinSep] at ih ⊢; rw [ih]
        | cons q qs =>
          simp only [joinSep] at ih ⊢
          simp [ih]

theorem percentToBytes_cons (c : Char) (rest : List Char) :
    percentToBytes (c :: rest) =
      match percentStep c rest with
      | some (bs, rem) => (percentToBytes rem).map (fun tl => bs ++ tl)
      | none => none := by
  rw [percentToBytes]
  split
  · rename_i bs rem heq
    rw [heq]
  · rename_i heq
    rw [heq]

theorem percentToBytes_no_percent : ∀ l : List Char, (∀ c ∈ l, c ≠ '%') →
    percentToBytes l = some (utf8Encode l)
  | [], _ => by rw [percentToBytes]; rfl
  | c :: rest, h => by
    have hc : ¬(c = '%') := h c (by simp)
    have ih := percentToBytes_no_percent rest (fun d hd => h d (by simp [hd]))
    rw [percentToBytes_cons]
    have hstep : percentStep c rest = some (utf8EncodeChar c, rest) := by
      simp [percentStep, if_neg hc]
    rw [hstep]
    dsimp only
    rw [ih]
    rfl

theorem decodeUriComp_no_percent (l : List Char) (h : ∀ c ∈ l, c ≠ '%') :
    decodeUriComp l = some l := by
  unfold decodeUriComp
  rw [percentToBytes_no_percent l h]
  dsimp only
  exact utf8Decode_utf8Encode l

theorem deriveImagePath_rawPrefix (cfg : RepoConfig) (s : List Char)
    (hne : s ≠ []) (h : ∀ c ∈ s, c ≠ '%') :
    deriveImagePath cfg (rawBase cfg ++ s) = .ok s := by
  have h1 : deriveRawPath cfg (rawBase cfg ++ s) = .ok s := by
    simp only [deriveRawPath, isPrefixOfB_append, if_pos, List.drop_left]
  unfold deriveImagePath
  rw [h1]
  cases s with
  | nil => exact absurd rfl hne
  | cons c cs =>
    dsimp only
    rw [decodeUriComp_no_percent _ h]

theorem char_toNat_of_ofNat (n : Nat) (h : n < 55296) : (Char.ofNat n).toNat = n := by
  unfold Char.ofNat
  rw [dif_pos (Or.inl h : n.isValidChar)]
  rfl

theorem toLower_toNat (c : Char) : (Char.toLower c).toNat =
    if 65 ≤ c.toNat ∧ c.toNat ≤ 90 then c.toNat + 32 else c.toNat := by
  unfold Char.toLower
  split
  · rename_i hcond
    rw [if_pos ⟨hcond.1, hcond.2⟩]
    exact char_toNat_of_ofNat _ (by omega)
  · rename_i hcond
    rw [if_neg (fun hcontra => hcond ⟨hcontra.1, hcontra.2⟩)]

theorem cleanFileName_sanitized (name : List Char) :
    ∀ c ∈ cleanFileName name, sanitizedChar c = true := by
  intro c hc
  simp only [cleanFileName, List.mem_map] at hc
  obtain ⟨c0, hc0, rfl⟩ := hc
  have hk : keepChar c0 = true := List.of_mem_filter hc0
  have ht := toLower_toNat c0
  simp only [keepChar, Bool.or_eq_true, Bool.and_eq_true, decide_eq_true_eq,
    beq_iff_eq] at hk
  simp only [sanitizedChar, Bool.or_eq_true, Bool.and_eq_true, decide_eq_true_eq,
    beq_iff_eq]
  by_cases hcond : 65 ≤ c0.toNat ∧ c0.toNat ≤ 90
  · rw [if_pos hcond] at ht
    omega
  · rw [if_neg hcond] at ht
    omega

theorem sanitizedChar_ne_percent (c : Char) (h : sanitizedChar c = true) :
    c ≠ '%' := by
  intro hcontra
  subst hcontra
  revert h
  decide

theorem uploadPath_no_percent (name ts : List Char)
    (hts : ∀ c ∈ ts, 48 ≤ c.toNat ∧ c.toNat ≤ 57) :
    ∀ c ∈ uploadPath name ts, c ≠ '%' := by
  intro c hc
  simp only [uploadPath, List.mem_append] at hc
  rcases hc with ((hc | hc) | hc) | hc
  · have hlit : ∀ x ∈ "images/".data, x ≠ '%' := by decide
    exact hlit c hc
  · have hd := hts c hc
    intro hcontra
    subst hcontra
    revert hd
    decide
  · have hlit : ∀ x ∈ "-".data, x ≠ '%' := by decide
    exact hlit c hc
  · exact sanitizedChar_ne_percent c (cleanFileName_sanitized name c hc)

theorem uploadPath_ne_nil (name ts : List Char) : uploadPath name ts ≠ [] := by
  have hform : uploadPath name ts =
      'i' :: ("mages/".data ++ ts ++ "-".data ++ cleanFileName name) := rfl
  rw [hform]
  simp

/-- C10: for every file name and configuration, the URL returned by
uploadImageToGitHub begins with the raw-mirror prefix of that configuration,
the sanitized filename contains only lowercase letters, digits, dots and
hyphens, and applying the asset-path derivation of deleteArtworkFromGitHub
(including the decodeURIComponent step) to that URL recovers exactly the
store path the upload wrote, so self-uploaded assets are always cleanly
derivable for deletion. -/
theorem c10_upload_delete_path_roundtrip (cfg : RepoConfig) (name ts : List Char)
    (hts : ∀ c ∈ ts, 48 ≤ c.toNat ∧ c.toNat ≤ 57) :
    isPrefixOfB (rawBase cfg) (uploadUrl cfg name ts) = true ∧
    (∀ c ∈ cleanFileName name, sanitizedChar c = true) ∧
    deriveImagePath cfg (uploadUrl cfg name ts) = .ok (uploadPath name ts) := by
  refine ⟨isPrefixOfB_append _ _, cleanFileName_sanitized name, ?_⟩
  exact deriveImagePath_rawPrefix cfg (uploadPath name ts)
    (uploadPath_ne_nil name ts) (uploadPath_no_percent name ts hts)

theorem c10_witness :
    (∀ c ∈ "171234".data, 48 ≤ c.toNat ∧ c.toNat ≤ 57) ∧
    deriveImagePath ⟨"alice", "art", "", some "tok"⟩
        (uploadUrl ⟨"alice", "art", "", some "tok"⟩ "My File (1).JPG".data
          "171234".data) =
      .ok (uploadPath "My File (1).JPG".data "171234".data) :=
  ⟨by decide,
    (c10_upload_delete_path_roundtrip ⟨"alice", "art", "", some "tok"⟩
      "My File (1).JPG".data "171234".data (by decide)).2.2⟩

theorem urlPathname_https (host tail : List Char)
    (hhost : ∀ c ∈ host, c ≠ '/' ∧ c ≠ '?' ∧ c ≠ '#')
    (htail : ∀ c ∈ tail, c ≠ '?' ∧ c ≠ '#') :
    urlPathname ("https://".data ++ host ++ '/' :: tail) = some ('/' :: tail) := by
  have hshape : "https://".data ++ host ++ '/' :: tail =
      'h' :: 't' :: 't' :: 'p' :: 's' :: ':' :: '/' :: '/' ::
        (host ++ '/' :: tail) := rfl
  rw [hshape]
  unfold urlPathname
  have hdrop1 : ('h' :: 't' :: 't' :: 'p' :: 's' :: ':' :: '/' :: '/' ::
      (host ++ '/' :: tail)).dropWhile (fun c => c != ':') =
      ':' :: '/' :: '/' :: (host ++ '/' :: tail) := by
    simp [List.dropWhile_cons]
  rw [hdrop1]
  have hall : ∀ c ∈ host, ((c != '/' && c != '?') && c != '#') = true := by
    intro c hc
    obtain ⟨h1, h2, h3⟩ := hhost c hc
    simp [h1, h2, h3]
  have hdrop2 : (host ++ '/' :: tail).dropWhile
      (fun c => c != '/' && c != '?' && c != '#') = '/' :: tail := by
    rw [dropWhile_append_all _ host ('/' :: tail) hall]
    simp [List.dropWhile_cons]
  have htake : ('/' :: tail).takeWhile (fun c => c != '?' && c != '#') =
      '/' :: tail := by
    apply takeWhile_all
    intro c hc
    rcases List.mem_cons.mp hc with rfl | hc
    · rfl
    · obtain ⟨h1, h2⟩ := htail c hc
      simp [h1, h2]
  show some (List.takeWhile (fun c => c != '?' && c != '#')
    (List.dropWhile (fun c => c != '/' && c != '?' && c != '#')
      (host ++ '/' :: tail))) = some ('/' :: tail)
  rw [hdrop2, htake]

theorem deriveRawPath_strategy2 (cfg : RepoConfig) (url path : List Char)
    (hpre2 : isPrefixOfB (rawBase cfg) url = false)
    (hcont : containsSub "/images/".data url = true)
    (hpath2 : urlPathname url = some path) :
    deriveRawPath cfg url =
      (match imagesSuffix (splitChar '/' path) with
        | some p => Except.ok p
        | none => Except.ok ([] : List Char)) := by
  unfold deriveRawPath
  rw [hpre2]
  rw [if_neg (by simp)]
  rw [hcont]
  rw [if_pos rfl]
  rw [hpath2]

theorem deriveImagePath_of_raw (cfg : RepoConfig) (url : List Char) (c : Char)
    (cs : List Char) (hraw : deriveRawPath cfg url = .ok (c :: cs))
    (hnp : ∀ x ∈ c :: cs, x ≠ '%') :
    deriveImagePath cfg url = .ok (c :: cs) := by
  unfold deriveImagePath
  rw [hraw]
  dsimp only
  rw [decodeUriComp_no_percent _ hnp]

/-- C8: for every configuration, an asset URL that is exactly the raw-mirror
prefix of that configuration followed by images/171234-file.jpg derives the
store-relative path images/171234-file.jpg (prefix stripping, then URL
decoding, leaves it intact); and a URL that does not match the prefix but
whose path contains an images segment derives the path from that segment
onward. -/
theorem c8_asset_path_derivation (cfg : RepoConfig) (host seg file : List Char)
    (hpre : isPrefixOfB (rawBase cfg)
      ("https://".data ++ host ++ '/' :: (seg ++ "/images/".data ++ file)) = false)
    (hhost : ∀ c ∈ host, c ≠ '/' ∧ c ≠ '?' ∧ c ≠ '#')
    (hseg : ∀ c ∈ seg, c ≠ '/' ∧ c ≠ '?' ∧ c ≠ '#')
    (hsegne : seg ≠ "images".data)
    (hfile : ∀ c ∈ file, c ≠ '/' ∧ c ≠ '?' ∧ c ≠ '#' ∧ c ≠ '%') :
    deriveImagePath cfg (rawBase cfg ++ "images/171234-file.jpg".data) =
      .ok "images/171234-file.jpg".data ∧
    deriveImagePath cfg
        ("https://".data ++ host ++ '/' :: (seg ++ "/images/".data ++ file)) =
      .ok ("images/".data ++ file) := by
  constructor
  · exact deriveImagePath_rawPrefix cfg _ (by decide) (by decide)
  · have hpath : urlPathname
        ("https://".data ++ host ++ '/' :: (seg ++ "/images/".data ++ file)) =
        some ('/' :: (seg ++ "/images/".data ++ file)) := by
      apply urlPathname_https host _ hhost
      intro c hc
      rcases List.mem_append.mp hc with hc | hc
      · rcases List.mem_append.mp hc with hc | hc
        · exact ⟨(hseg c hc).2.1, (hseg c hc).2.2⟩
        · have hlit : ∀ x ∈ "/images/".data, x ≠ '?' ∧ x ≠ '#' := by decide
          exact hlit c hc
      · exact ⟨(hfile c hc).2.1, (hfile c hc).2.2.1⟩
    have hcontains : containsSub "/images/".data
        ("https://".data ++ host ++ '/' :: (seg ++ "/images/".data ++ file)) =
        true := by
      have hassoc : "https://".data ++ host ++ '/' ::
            (seg ++ "/images/".data ++ file) =
          ("https://".data ++ host ++ '/' :: seg) ++
            ("/images/".data ++ file) := by
        rw [List.append_assoc seg "/images/".data file,
          List.append_assoc ("https://".data ++ host) ('/' :: seg)
            ("/images/".data ++ file)]
        rfl
      rw [hassoc]
      exact containsSub_middle _ _ _
    have hsplit : splitChar '/' ('/' :: (seg ++ "/images/".data ++ file)) =
        [] :: seg :: "images".data :: [file] := by
      rw [show seg ++ "/images/".data ++ file =
          seg ++ '/' :: ("images".data ++ '/' :: file) from by
        rw [List.append_assoc]
        rfl]
      rw [show splitChar '/' ('/' :: (seg ++ '/' ::
          ("images".data ++ '/' :: file))) =
          [] :: splitChar '/' (seg ++ '/' :: ("images".data ++ '/' :: file))
          from by simp [splitChar]]
      rw [splitChar_append '/' seg ("images".data ++ '/' :: file)
        (fun c hc => (hseg c hc).1)]
      rw [splitChar_append '/' "images".data file (by decide)]
      rw [splitChar_no_sep '/' file (fun c hc => (hfile c hc).1)]
    have himg : imagesSuffix ([] :: seg :: "images".data :: [file]) =
        some (joinSep '/' ("images".data :: [file])) := by
      rw [imagesSuffix, if_neg (by decide : ¬(([] : List Char) = "images".data)),
        imagesSuffix, if_neg hsegne, imagesSuffix, if_pos rfl]
    have hjoin : joinSep '/' ("images".data :: [file]) =
        "images".data ++ '/' :: file := by
      simp only [joinSep]
    have hraw : deriveRawPath cfg
        ("https://".data ++ host ++ '/' :: (seg ++ "/images/".data ++ file)) =
        .ok ('i' :: ("mages".data ++ '/' :: file)) := by
      rw [deriveRawPath_strategy2 cfg _ _ hpre hcontains hpath]
      rw [hsplit, himg, hjoin]
      rfl
    have hnp : ∀ x ∈ 'i' :: ("mages".data ++ '/' :: file), x ≠ '%' := by
      intro x hx
      rcases List.mem_cons.mp hx with rfl | hx
      · decide
      · rcases List.mem_append.mp hx with hx | hx
        · have hlit : ∀ y ∈ "mages".data, y ≠ '%' := by decide
          exact hlit x hx
        · rcases List.mem_cons.mp hx with rfl | hx
          · decide
          · exact (hfile x hx).2.2.2
    have hfinal := deriveImagePath_of_raw cfg _ 'i' _ hraw hnp
    exact hfinal

theorem c8_witness :
    isPrefixOfB (rawBase ⟨"alice", "art", "", some "tok"⟩)
      ("https://".data ++ "cdn.example.com".data ++ '/' ::
        ("u".data ++ "/images/".data ++ "pic.png".data)) = false ∧
    deriveImagePath ⟨"alice", "art", "", some "tok"⟩
        ("https://".data ++ "cdn.example.com".data ++ '/' ::
          ("u".data ++ "/images/".data ++ "pic.png".data)) =
      .ok ("images/".data ++ "pic.png".data) :=
  ⟨by decide,
    (c8_asset_path_derivation ⟨"alice", "art", "", some "tok"⟩
      "cdn.example.com".data "u".data "pic.png".data (by decide) (by decide)
      (by decide) (by decide) (by decide)).2⟩
